import Mathlib

/-!
Verification of the Py-Caster raycasting renderer (`py_caster.py`).

The Python source is shallowly embedded over the real numbers: Python
floats become `ℝ`, Python's `int(...)` truncation becomes `pyInt`,
Python's float `%` (sign of the divisor, here always positive) becomes
`pymod`, and the mutating vector methods become pure functions.
-/

noncomputable section

namespace PyCaster

/-- Game parameter `FAR = 5.0` (line 13 of the source). -/
def FAR : ℝ := 5.0

/-- Game parameter `TOLERANCE = 0.000001` (line 14 of the source). -/
def TOLERANCE : ℝ := 0.000001

/-- Projection parameter `DEG2RAD` (line 23 of the source). -/
def DEG2RAD : ℝ := 3.1415926535897932384626433 / 180.0

/-- Projection parameter `HEIGHT_CLAMP_MULTIPLER = 10` (line 27 of the source). -/
def HEIGHT_CLAMP_MULTIPLER : ℤ := 10

/-- Framebuffer size `FB_SIZE = (320, 200)` (line 22 of the source). -/
def FB_SIZE : ℤ × ℤ := (320, 200)

/-- Python's `int(...)` float-to-integer conversion: truncation toward zero. -/
def pyInt (x : ℝ) : ℤ := if 0 ≤ x then ⌊x⌋ else ⌈x⌉

/-- Python's float modulo `x % m` (the result carries the sign of `m`;
here `m` is always a positive texture size): `x - m * ⌊x / m⌋`. -/
def pymod (x m : ℝ) : ℝ := x - m * ⌊x / m⌋

/-- Class `vec2` (lines 88-119): a 2D vector with float components. -/
structure vec2 where
  x : ℝ
  y : ℝ

/-- Class `vec3` (lines 56-86): a 3D vector with float components. -/
structure vec3 where
  x : ℝ
  y : ℝ
  z : ℝ

namespace vec3

/-- `vec3.add` (line 65). -/
def add (a v : vec3) : vec3 := ⟨a.x + v.x, a.y + v.y, a.z + v.z⟩

/-- `vec3.sub` (line 68). -/
def sub (a v : vec3) : vec3 := ⟨a.x - v.x, a.y - v.y, a.z - v.z⟩

/-- `vec3.scale` (line 71). -/
def scale (a : vec3) (k : ℝ) : vec3 := ⟨a.x * k, a.y * k, a.z * k⟩

/-- `vec3.dot` (line 74). -/
def dot (a v : vec3) : ℝ := (a.x * v.x) + (a.y * v.y) + (a.z * v.z)

/-- `vec.length` (line 44): `sqrt(self.dot(self))`. -/
def length (a : vec3) : ℝ := Real.sqrt (a.dot a)

/-- `vec3.normalize` (lines 77-83): divide by the length when it is
positive, otherwise leave the vector unchanged. -/
def normalize (a : vec3) : vec3 :=
  if 0 < a.length then ⟨a.x / a.length, a.y / a.length, a.z / a.length⟩ else a

end vec3

namespace vec2

/-- `vec2.add` (line 96). -/
def add (a v : vec2) : vec2 := ⟨a.x + v.x, a.y + v.y⟩

/-- `vec2.sub` (line 99). -/
def sub (a v : vec2) : vec2 := ⟨a.x - v.x, a.y - v.y⟩

/-- `vec2.scale` (line 102). -/
def scale (a : vec2) (k : ℝ) : vec2 := ⟨a.x * k, a.y * k⟩

/-- `vec2.dot` (line 105). -/
def dot (a v : vec2) : ℝ := (a.x * v.x) + (a.y * v.y)

/-- `vec.length` (line 44) for `vec2`. -/
def length (a : vec2) : ℝ := Real.sqrt (a.dot a)

/-- `vec.distance` (line 50): `p.sub(self).length()`. -/
def distance (a p : vec2) : ℝ := (p.sub a).length

/-- `vec2.normalize` (lines 108-113). -/
def normalize (a : vec2) : vec2 :=
  if 0 < a.length then ⟨a.x / a.length, a.y / a.length⟩ else a

/-- `vec2.cross` (line 115): embeds the 2D cross product in a `vec3`. -/
def cross (a v : vec2) : vec3 := ⟨0.0, 0.0, (a.x * v.y) - (a.y * v.x)⟩

/-- `vec2.mix` (line 118). -/
def mix (a v : vec2) (t : ℝ) : vec2 :=
  ⟨(a.x * t) + (v.x * (1.0 - t)), (a.y * t) + (v.y * (1.0 - t))⟩

end vec2

/-- Class `Ray` (lines 125-131): origin and direction. -/
structure Ray where
  o : vec2
  d : vec2

/-- `Ray.__init__` (lines 126-128): stores the origin and the
NORMALIZED direction. -/
def mkRay (origin direction : vec2) : Ray := ⟨origin, direction.normalize⟩

/-- Class `Intersection` (lines 137-141): hit point, distance from the
ray origin, and a texture coordinate. -/
structure Intersection where
  p : vec2
  d : ℝ
  tc : ℝ

/-- `Intersection.__init__` (lines 138-141): `p = r.o + r.d * t`,
`d = r.o.distance(p)`. -/
def Intersection.ofRay (r : Ray) (t : ℝ) (tex_coord : ℝ) : Intersection :=
  { p := r.o.add (r.d.scale t)
    d := r.o.distance (r.o.add (r.d.scale t))
    tc := tex_coord }

/-- Class `LineSegment` (lines 147-155): endpoints and the texture
coordinates bound to them.  The derived fields `v` and `n` of the
constructor are the definitions `LineSegment.v` / `LineSegment.n`. -/
structure LineSegment where
  a : vec2
  b : vec2
  tca : ℝ
  tcb : ℝ

/-- Derived unit tangent `self.v = b.sub(a).normalize()` (line 151). -/
def LineSegment.v (l : LineSegment) : vec2 := (l.b.sub l.a).normalize

/-- Derived normal `self.n = vec2(-self.v.y, self.v.x)` (line 152). -/
def LineSegment.n (l : LineSegment) : vec2 := ⟨-(l.v).y, (l.v).x⟩

/-- Helper `sign` inside `intersect` (lines 162-168). -/
def sign (n : ℝ) : ℤ := if n = 0 then 0 else if 0 < n then 1 else -1

/-- Helper `lerp` inside `intersect` (lines 170-171):
`(a * t) + (b * (1.0 - t))`. -/
def lerp (a b t : ℝ) : ℝ := (a * t) + (b * (1.0 - t))

/-- Helper `classifyPoint2D` inside `intersect` (lines 158-160). -/
def LineSegment.classifyPoint2D (l : LineSegment) (point : vec2) : ℝ :=
  ((point.sub l.a).normalize).dot l.n

/-- Local `v3` of `intersect` (line 175): selected by the side of the
ray origin. -/
def LineSegment.v3val (l : LineSegment) (r : Ray) : vec2 :=
  if 0 < sign (l.classifyPoint2D r.o) then ⟨-r.d.y, r.d.x⟩ else ⟨r.d.y, -r.d.x⟩

/-- Local `det` of `intersect` (line 176): `v2.dot(v3)` with `v2 = b - a`. -/
def LineSegment.detval (l : LineSegment) (r : Ray) : ℝ :=
  (l.b.sub l.a).dot (l.v3val r)

/-- Local `t1` of `intersect` (line 182): `v2.cross(v1).length() / det`. -/
def LineSegment.t1val (l : LineSegment) (r : Ray) : ℝ :=
  ((l.b.sub l.a).cross (r.o.sub l.a)).length / l.detval r

/-- Local `t2` of `intersect` (line 183): `v1.dot(v3) / det`. -/
def LineSegment.t2val (l : LineSegment) (r : Ray) : ℝ :=
  ((r.o.sub l.a).dot (l.v3val r)) / l.detval r

/-- `LineSegment.intersect` (lines 157-188): reject a near-parallel
determinant, otherwise accept when `t2 ∈ [0,1]` and `t1 > 0`. -/
def LineSegment.intersect (l : LineSegment) (r : Ray) : Option Intersection :=
  if |l.detval r| < TOLERANCE then none
  else if 0.0 ≤ l.t2val r ∧ l.t2val r ≤ 1.0 ∧ 0.0 < l.t1val r then
    some (Intersection.ofRay r (l.t1val r) (lerp l.tca l.tcb (l.t2val r)))
  else none

/-- `LineSegment.get_tex_column` (lines 190-196), reduced to the index
of the selected texture column: `w` is the texture width,
`_s = s * w if s >= 0.0 else (1.0 - (math.ceil(s) - s)) * w`, then
`int(_s % w)`. -/
def get_tex_column (w : ℕ) (s : ℝ) : ℤ :=
  pyInt (pymod (if 0.0 ≤ s then s * w else (1.0 - ((⌈s⌉ : ℝ) - s)) * w) w)

/-- `Plane3d.sample_texture` (lines 206-213), reduced to the `(s, t)`
pixel indices of the returned 1×1 rect, for a texture of size `w × h`. -/
def Plane3d.sample_texture (w h : ℕ) (st : vec2) : ℤ × ℤ :=
  (pyInt (pymod (if 0.0 ≤ st.x then st.x * w else (1.0 - ((⌈st.x⌉ : ℝ) - st.x)) * w) w),
   pyInt (pymod (if 0.0 ≤ st.y then st.y * h else (1.0 - ((⌈st.y⌉ : ℝ) - st.y)) * h) h))

/-- Per-column camera offset `camera_x = 2.0 * (float(i) / float(FB_SIZE[0])) - 1`
(line 346 of the main loop), generalized over the framebuffer width. -/
def camera_x (i width : ℕ) : ℝ := 2.0 * ((i : ℝ) / (width : ℝ)) - 1

/-- The camera ray built for screen column `i` (line 347):
`Ray(vec2(player_pos.x, player_pos.y), player_dir.add(plane.scale(camera_x)))`. -/
def wallRay (player_pos player_dir plane : vec2) (i width : ℕ) : Ray :=
  mkRay ⟨player_pos.x, player_pos.y⟩ (player_dir.add (plane.scale (camera_x i width)))

/-- One step of the wall loop (lines 354-362): keep the intersection if
it is strictly closer than the best one so far (`d` starts at `Inf`,
modelled by `none`). -/
def keepNearest (r : Ray) (acc : Option Intersection) (l : LineSegment) :
    Option Intersection :=
  match l.intersect r with
  | none => acc
  | some it =>
    match acc with
    | none => some it
    | some best => if it.d < best.d then some it else some best

/-- The intersection kept for one column after testing every wall
(lines 349-362). -/
def wallPassHit (walls : List LineSegment) (r : Ray) : Option Intersection :=
  walls.foldl (keepNearest r) none

/-- The value of `depth_buffer[i]` after the wall pass for the column
whose ray is `r`: the buffer entry starts at `0` (line 343) and is
overwritten with `d` each time a closer hit is kept (line 362). -/
def depthBufferValue (walls : List LineSegment) (r : Ray) : ℝ :=
  match wallPassHit walls r with
  | none => 0
  | some it => it.d

/-- Projected wall strip height for a hit at distance `d` and column
angle `angle` (lines 366-369): `int(float(FB_SIZE[1]) / (d * cos(angle * DEG2RAD)))`
clamped to `HEIGHT_CLAMP_MULTIPLER * FB_SIZE[1]`. -/
def projHeight (d angle : ℝ) : ℤ :=
  if HEIGHT_CLAMP_MULTIPLER * 200 < pyInt ((200 : ℝ) / (d * Real.cos (angle * DEG2RAD)))
  then HEIGHT_CLAMP_MULTIPLER * 200
  else pyInt ((200 : ℝ) / (d * Real.cos (angle * DEG2RAD)))

/-- Distance-shading ramp `_d = (d if d < FAR else FAR) / FAR`, written
identically for walls (line 376), floor/ceiling (line 403) and sprites
(line 459). -/
def fogScale (d : ℝ) : ℝ := (if d < FAR then d else FAR) / FAR

/-- Distance-shading factor `depth = 255 - int(_d * 255)` multiplied
into the pixels (lines 377, 404, 460); `255` means no darkening. -/
def fogDepth (d : ℝ) : ℤ := 255 - pyInt (fogScale d * 255)

/-- Sprite footprint start column (lines 441-442):
`int((-sw / 2) + sp_screen_x)` clamped below at `0`; `-sw / 2` is
Python 2 integer floor division. -/
def draw_start_x (sw sp_screen_x : ℤ) : ℤ :=
  if (-sw) / 2 + sp_screen_x < 0 then 0 else (-sw) / 2 + sp_screen_x

/-- Sprite footprint end column (lines 443-444): `int((sw / 2) + sp_screen_x)`
clamped above at `FB_SIZE[0]` (here the parameter `width`). -/
def draw_end_x (width sw sp_screen_x : ℤ) : ℤ :=
  if width ≤ sw / 2 + sp_screen_x then width else sw / 2 + sp_screen_x

/-- The draw condition of the sprite column loop (line 453):
`i >= 0 and i < FB_SIZE[0] and ty < depth_buffer[i]`. -/
def spriteSliceDrawn (width i : ℤ) (ty depth_i : ℝ) : Prop :=
  0 ≤ i ∧ i < width ∧ ty < depth_i

/-- Modelled from the spec: the "perpendicular distance" of a hit point,
"the nearest hit's distance projected onto the view axis" — the
displacement from the ray origin to the hit point, projected onto the
unit view direction.  This definition follows the spec's words and is
compared with what the code stores in the depth buffer. -/
def specPerpendicularDepth (view_dir : vec2) (o p : vec2) : ℝ :=
  (p.sub o).dot view_dir.normalize

/-! Helper lemmas for evaluating the geometry on concrete inputs. -/

lemma sqrt_four : Real.sqrt 4 = 2 := by
  rw [show (4 : ℝ) = 2 ^ 2 by norm_num, Real.sqrt_sq (by norm_num : (0 : ℝ) ≤ 2)]

lemma sqrt_two_pos : 0 < Real.sqrt 2 := Real.sqrt_pos.mpr (by norm_num)

lemma one_le_sqrt_two : 1 ≤ Real.sqrt 2 := by
  rw [show (1 : ℝ) = Real.sqrt 1 from Real.sqrt_one.symm]
  exact Real.sqrt_le_sqrt (by norm_num)

lemma vec2.length_sqrt (v : vec2) : v.length = Real.sqrt (v.x * v.x + v.y * v.y) := rfl

lemma vec2.length_nonneg (v : vec2) : 0 ≤ v.length := Real.sqrt_nonneg _

/-- Evaluate `vec2.normalize` on a literal vector whose length is known. -/
lemma vec2.normalize_mk (x y L : ℝ) (hL : Real.sqrt (x * x + y * y) = L)
    (h0 : 0 < L) : vec2.normalize ⟨x, y⟩ = ⟨x / L, y / L⟩ := by
  have hlen : vec2.length ⟨x, y⟩ = L := by rw [vec2.length_sqrt]; exact hL
  unfold vec2.normalize
  rw [hlen, if_pos h0]

/-- Dotting a normalized vector is dividing the dot product by the length
(also in the zero-length case, where both sides vanish). -/
lemma vec2.normalize_dot (v w : vec2) :
    (v.normalize).dot w = v.dot w / v.length := by
  unfold vec2.normalize vec2.dot
  by_cases h : 0 < v.length
  · rw [if_pos h]
    show v.x / v.length * w.x + v.y / v.length * w.y = _
    have hne : v.length ≠ 0 := ne_of_gt h
    field_simp
  · rw [if_neg h]
    have hL : v.length = 0 := le_antisymm (not_lt.mp h) (vec2.length_nonneg v)
    have h1 : 0 ≤ v.x * v.x + v.y * v.y :=
      add_nonneg (mul_self_nonneg _) (mul_self_nonneg _)
    have hxy : v.x * v.x + v.y * v.y = 0 := by
      refine (Real.sqrt_eq_zero h1).mp ?_
      rw [vec2.length_sqrt] at hL
      exact hL
    have hx : v.x = 0 := by nlinarith [sq_nonneg v.x, sq_nonneg v.y]
    have hy : v.y = 0 := by nlinarith [sq_nonneg v.x, sq_nonneg v.y]
    rw [hL]
    show v.x * w.x + v.y * w.y = _
    rw [hx, hy]
    simp

lemma classify_eq_div (l : LineSegment) (p : vec2) :
    l.classifyPoint2D p = ((p.sub l.a).dot l.n) / (p.sub l.a).length :=
  vec2.normalize_dot _ _

lemma sign_not_pos_of_neg (x : ℝ) (h : x < 0) : ¬ (0 < sign x) := by
  unfold sign
  rw [if_neg (ne_of_lt h), if_neg (not_lt.mpr h.le)]
  norm_num

lemma sign_pos_of_pos (x : ℝ) (h : 0 < x) : 0 < sign x := by
  unfold sign
  rw [if_neg (ne_of_gt h), if_pos h]
  norm_num

lemma v3val_of_neg_side (l : LineSegment) (r : Ray)
    (h : l.classifyPoint2D r.o < 0) : l.v3val r = ⟨r.d.y, -r.d.x⟩ := by
  unfold LineSegment.v3val
  rw [if_neg (sign_not_pos_of_neg _ h)]

lemma v3val_of_pos_side (l : LineSegment) (r : Ray)
    (h : 0 < l.classifyPoint2D r.o) : l.v3val r = ⟨-r.d.y, r.d.x⟩ := by
  unfold LineSegment.v3val
  rw [if_pos (sign_pos_of_pos _ h)]

/-- The length of the embedded 2D cross product is the absolute value of
its `z` component. -/
lemma vec2.cross_length (a v : vec2) :
    (a.cross v).length = |a.x * v.y - a.y * v.x| := by
  show Real.sqrt _ = _
  rw [show vec3.dot (a.cross v) (a.cross v)
      = ((a.x * v.y) - (a.y * v.x)) ^ 2 by
    unfold vec2.cross vec3.dot; ring]
  exact Real.sqrt_sq_eq_abs _

/-! Concrete walls and rays used to evaluate the pipeline. -/

/-- The wall segment of the spec's intersection test: `a = (0,0)`,
`b = (2,0)`, endpoint texture coordinates `tca`, `tcb`. -/
def wallA (tca tcb : ℝ) : LineSegment := ⟨⟨0, 0⟩, ⟨2, 0⟩, tca, tcb⟩

/-- The ray of the spec's intersection test: origin `(1,-1)`,
direction `(0,1)`. -/
def rayA : Ray := mkRay ⟨1, -1⟩ ⟨0, 1⟩

/-- A ray hitting `wallA` exactly at endpoint `a` (segment parameter 0). -/
def rayB : Ray := mkRay ⟨0, -1⟩ ⟨0, 1⟩

/-- A ray on the far side of `wallA` pointing away from it (no hit). -/
def rayD : Ray := mkRay ⟨0, 1⟩ ⟨0, 1⟩

/-- A wall segment on the line `y = 1`. -/
def wallB : LineSegment := ⟨⟨-1, 1⟩, ⟨1, 1⟩, 0, 1⟩

/-- The camera ray of column 1 of a 4-column framebuffer for a player at
the origin with view direction `(0,1)` and camera plane `(-2,0)`:
its direction before normalization is `(1,1)`. -/
def rayC : Ray := wallRay ⟨0, 0⟩ ⟨0, 1⟩ ⟨-2, 0⟩ 1 4

lemma rayA_eq : rayA = ⟨⟨1, -1⟩, ⟨0, 1⟩⟩ := by
  unfold rayA mkRay
  rw [vec2.normalize_mk 0 1 1 (by rw [show (0 : ℝ) * 0 + 1 * 1 = 1 by norm_num, Real.sqrt_one]) one_pos]
  norm_num

lemma rayB_eq : rayB = ⟨⟨0, -1⟩, ⟨0, 1⟩⟩ := by
  unfold rayB mkRay
  rw [vec2.normalize_mk 0 1 1 (by rw [show (0 : ℝ) * 0 + 1 * 1 = 1 by norm_num, Real.sqrt_one]) one_pos]
  norm_num

lemma rayD_eq : rayD = ⟨⟨0, 1⟩, ⟨0, 1⟩⟩ := by
  unfold rayD mkRay
  rw [vec2.normalize_mk 0 1 1 (by rw [show (0 : ℝ) * 0 + 1 * 1 = 1 by norm_num, Real.sqrt_one]) one_pos]
  norm_num

lemma rayC_eq : rayC = ⟨⟨0, 0⟩, ⟨1 / Real.sqrt 2, 1 / Real.sqrt 2⟩⟩ := by
  unfold rayC wallRay mkRay camera_x
  have harg : (vec2.add ⟨0, 1⟩ (vec2.scale ⟨-2, 0⟩ (2.0 * ((1 : ℕ) / (4 : ℕ) : ℝ) - 1)))
      = (⟨1, 1⟩ : vec2) := by
    unfold vec2.add vec2.scale
    norm_num
  rw [harg, vec2.normalize_mk 1 1 (Real.sqrt 2)
    (by rw [show (1 : ℝ) * 1 + 1 * 1 = 2 by norm_num]) sqrt_two_pos]

lemma wallA_v2 (tca tcb : ℝ) :
    (wallA tca tcb).b.sub (wallA tca tcb).a = ⟨2, 0⟩ := by
  show vec2.sub ⟨2, 0⟩ ⟨0, 0⟩ = _
  unfold vec2.sub
  norm_num

lemma wallA_n (tca tcb : ℝ) : (wallA tca tcb).n = ⟨0, 1⟩ := by
  have hv : (wallA tca tcb).v = ⟨1, 0⟩ := by
    unfold LineSegment.v
    rw [wallA_v2, vec2.normalize_mk 2 0 2
      (by rw [show (2 : ℝ) * 2 + 0 * 0 = 4 by norm_num]; exact sqrt_four) two_pos]
    norm_num
  unfold LineSegment.n
  rw [hv]
  norm_num

lemma intersect_wallA_rayA (tca tcb : ℝ) :
    (wallA tca tcb).intersect rayA = some ⟨⟨1, 0⟩, 1, (tca + tcb) / 2⟩ := by
  have hs : rayA.o.sub (wallA tca tcb).a = ⟨1, -1⟩ := by
    show vec2.sub ⟨1, -1⟩ ⟨0, 0⟩ = _
    unfold vec2.sub
    norm_num
  have hside : (wallA tca tcb).classifyPoint2D rayA.o < 0 := by
    rw [classify_eq_div, hs, wallA_n]
    rw [show vec2.dot ⟨1, -1⟩ ⟨0, 1⟩ = (-1 : ℝ) by unfold vec2.dot; norm_num]
    rw [show vec2.length ⟨1, -1⟩ = Real.sqrt 2 by rw [vec2.length_sqrt]; norm_num]
    exact div_neg_of_neg_of_pos (by norm_num) sqrt_two_pos
  have hv3 : (wallA tca tcb).v3val rayA = ⟨1, 0⟩ := by
    rw [v3val_of_neg_side _ _ hside, rayA_eq]
    norm_num
  have hdet : (wallA tca tcb).detval rayA = 2 := by
    unfold LineSegment.detval
    rw [wallA_v2, hv3]
    unfold vec2.dot
    norm_num
  have ht1 : (wallA tca tcb).t1val rayA = 1 := by
    unfold LineSegment.t1val
    rw [wallA_v2, hs, hdet, vec2.cross_length]
    norm_num
  have ht2 : (wallA tca tcb).t2val rayA = 1 / 2 := by
    unfold LineSegment.t2val
    rw [hs, hv3, hdet]
    unfold vec2.dot
    norm_num
  unfold LineSegment.intersect
  rw [hdet, ht1, ht2]
  have hb1 : ¬ |(2 : ℝ)| < TOLERANCE := by rw [TOLERANCE]; norm_num
  have hb2 : (0.0 : ℝ) ≤ 1 / 2 ∧ (1 / 2 : ℝ) ≤ 1.0 ∧ (0.0 : ℝ) < 1 := by norm_num
  rw [if_neg hb1, if_pos hb2]
  unfold Intersection.ofRay lerp
  rw [rayA_eq]
  simp only [wallA]
  unfold vec2.add vec2.scale vec2.distance vec2.sub
  rw [vec2.length_sqrt]
  norm_num [Real.sqrt_one]
  ring

lemma wallA_rayB_sub (tca tcb : ℝ) :
    rayB.o.sub (wallA tca tcb).a = ⟨0, -1⟩ := by
  show vec2.sub ⟨0, -1⟩ ⟨0, 0⟩ = _
  unfold vec2.sub
  norm_num

lemma wallA_rayB_side (tca tcb : ℝ) :
    (wallA tca tcb).classifyPoint2D rayB.o < 0 := by
  rw [classify_eq_div, wallA_rayB_sub, wallA_n]
  rw [show vec2.dot ⟨0, -1⟩ ⟨0, 1⟩ = (-1 : ℝ) by unfold vec2.dot; norm_num]
  rw [show vec2.length ⟨0, -1⟩ = 1 by rw [vec2.length_sqrt]; norm_num [Real.sqrt_one]]
  norm_num

lemma wallA_rayB_v3 (tca tcb : ℝ) :
    (wallA tca tcb).v3val rayB = ⟨1, 0⟩ := by
  rw [v3val_of_neg_side _ _ (wallA_rayB_side tca tcb), rayB_eq]
  norm_num

lemma wallA_rayB_det (tca tcb : ℝ) :
    (wallA tca tcb).detval rayB = 2 := by
  unfold LineSegment.detval
  rw [wallA_v2, wallA_rayB_v3]
  unfold vec2.dot
  norm_num

lemma wallA_rayB_t2 (tca tcb : ℝ) :
    (wallA tca tcb).t2val rayB = 0 := by
  unfold LineSegment.t2val
  rw [wallA_rayB_sub, wallA_rayB_v3, wallA_rayB_det]
  unfold vec2.dot
  norm_num

lemma intersect_wallA_rayB (tca tcb : ℝ) :
    (wallA tca tcb).intersect rayB = some ⟨⟨0, 0⟩, 1, tcb⟩ := by
  have hdet := wallA_rayB_det tca tcb
  have ht2 := wallA_rayB_t2 tca tcb
  have ht1 : (wallA tca tcb).t1val rayB = 1 := by
    unfold LineSegment.t1val
    rw [wallA_v2, wallA_rayB_sub, hdet, vec2.cross_length]
    norm_num
  unfold LineSegment.intersect
  rw [hdet, ht1, ht2]
  have hb1 : ¬ |(2 : ℝ)| < TOLERANCE := by rw [TOLERANCE]; norm_num
  have hb2 : (0.0 : ℝ) ≤ 0 ∧ (0 : ℝ) ≤ 1.0 ∧ (0.0 : ℝ) < 1 := by norm_num
  rw [if_neg hb1, if_pos hb2]
  unfold Intersection.ofRay lerp
  rw [rayB_eq]
  simp only [wallA]
  unfold vec2.add vec2.scale vec2.distance vec2.sub
  rw [vec2.length_sqrt]
  norm_num [Real.sqrt_one]

lemma intersect_wallA_rayD (tca tcb : ℝ) :
    (wallA tca tcb).intersect rayD = none := by
  have hs : rayD.o.sub (wallA tca tcb).a = ⟨0, 1⟩ := by
    show vec2.sub ⟨0, 1⟩ ⟨0, 0⟩ = _
    unfold vec2.sub
    norm_num
  have hside : 0 < (wallA tca tcb).classifyPoint2D rayD.o := by
    rw [classify_eq_div, hs, wallA_n]
    rw [show vec2.dot ⟨0, 1⟩ ⟨0, 1⟩ = (1 : ℝ) by unfold vec2.dot; norm_num]
    rw [show vec2.length ⟨0, 1⟩ = 1 by rw [vec2.length_sqrt]; norm_num [Real.sqrt_one]]
    norm_num
  have hv3 : (wallA tca tcb).v3val rayD = ⟨-1, 0⟩ := by
    rw [v3val_of_pos_side _ _ hside, rayD_eq]
  have hdet : (wallA tca tcb).detval rayD = -2 := by
    unfold LineSegment.detval
    rw [wallA_v2, hv3]
    unfold vec2.dot
    norm_num
  have ht1 : (wallA tca tcb).t1val rayD = -1 := by
    unfold LineSegment.t1val
    rw [wallA_v2, hs, hdet, vec2.cross_length]
    norm_num
  have ht2 : (wallA tca tcb).t2val rayD = 0 := by
    unfold LineSegment.t2val
    rw [hs, hv3, hdet]
    unfold vec2.dot
    norm_num
  unfold LineSegment.intersect
  rw [hdet, ht1, ht2]
  have hb1 : ¬ |(-2 : ℝ)| < TOLERANCE := by rw [TOLERANCE]; norm_num
  have hb2 : ¬ ((0.0 : ℝ) ≤ 0 ∧ (0 : ℝ) ≤ 1.0 ∧ (0.0 : ℝ) < -1) := by norm_num
  rw [if_neg hb1, if_neg hb2]

lemma wallB_v2 : wallB.b.sub wallB.a = ⟨2, 0⟩ := by
  show vec2.sub ⟨1, 1⟩ ⟨-1, 1⟩ = _
  unfold vec2.sub
  norm_num

lemma wallB_n : wallB.n = ⟨0, 1⟩ := by
  have hv : wallB.v = ⟨1, 0⟩ := by
    unfold LineSegment.v
    rw [wallB_v2, vec2.normalize_mk 2 0 2
      (by rw [show (2 : ℝ) * 2 + 0 * 0 = 4 by norm_num]; exact sqrt_four) two_pos]
    norm_num
  unfold LineSegment.n
  rw [hv]
  norm_num

lemma intersect_wallB_rayC :
    wallB.intersect rayC = some ⟨⟨1, 1⟩, Real.sqrt 2, 0⟩ := by
  have hne : Real.sqrt 2 ≠ 0 := ne_of_gt sqrt_two_pos
  have hs : rayC.o.sub wallB.a = ⟨1, -1⟩ := by
    rw [rayC_eq]
    show vec2.sub ⟨0, 0⟩ ⟨-1, 1⟩ = _
    unfold vec2.sub
    norm_num
  have hside : wallB.classifyPoint2D rayC.o < 0 := by
    rw [classify_eq_div, hs, wallB_n]
    rw [show vec2.dot ⟨1, -1⟩ ⟨0, 1⟩ = (-1 : ℝ) by unfold vec2.dot; norm_num]
    rw [show vec2.length ⟨1, -1⟩ = Real.sqrt 2 by rw [vec2.length_sqrt]; norm_num]
    exact div_neg_of_neg_of_pos (by norm_num) sqrt_two_pos
  have hv3 : wallB.v3val rayC = ⟨1 / Real.sqrt 2, -(1 / Real.sqrt 2)⟩ := by
    rw [v3val_of_neg_side _ _ hside, rayC_eq]
  have hdet : wallB.detval rayC = Real.sqrt 2 := by
    unfold LineSegment.detval
    rw [wallB_v2, hv3]
    unfold vec2.dot
    rw [show (2 : ℝ) * (1 / Real.sqrt 2) + 0 * -(1 / Real.sqrt 2)
        = 2 / Real.sqrt 2 by ring]
    exact Real.div_sqrt
  have ht1 : wallB.t1val rayC = Real.sqrt 2 := by
    unfold LineSegment.t1val
    rw [wallB_v2, hs, hdet, vec2.cross_length]
    rw [show |(2 : ℝ) * (-1) - 0 * 1| = 2 by norm_num]
    exact Real.div_sqrt
  have ht2 : wallB.t2val rayC = 1 := by
    unfold LineSegment.t2val
    rw [hs, hv3, hdet]
    unfold vec2.dot
    rw [show (1 : ℝ) * (1 / Real.sqrt 2) + -1 * -(1 / Real.sqrt 2)
        = 2 / Real.sqrt 2 by ring]
    rw [Real.div_sqrt]
    exact div_self hne
  unfold LineSegment.intersect
  rw [hdet, ht1, ht2]
  have hb1 : ¬ |Real.sqrt 2| < TOLERANCE := by
    rw [TOLERANCE]
    intro hcon
    rw [abs_of_pos sqrt_two_pos] at hcon
    nlinarith [one_le_sqrt_two]
  have hb2 : (0.0 : ℝ) ≤ 1 ∧ (1 : ℝ) ≤ 1.0 ∧ (0.0 : ℝ) < Real.sqrt 2 := by
    refine ⟨by norm_num, by norm_num, ?_⟩
    norm_num [Real.sqrt_pos]
  rw [if_neg hb1, if_pos hb2]
  unfold Intersection.ofRay lerp
  rw [rayC_eq]
  simp only [wallB]
  unfold vec2.add vec2.scale vec2.distance vec2.sub
  have hmul : 1 / Real.sqrt 2 * Real.sqrt 2 = 1 := one_div_mul_cancel hne
  rw [vec2.length_sqrt]
  simp only [hmul]
  norm_num

/-! Lemmas about the wall loop that fills the depth buffer. -/

/-- Every intersection the code returns carries the Euclidean distance
from the ray origin to the stored hit point. -/
lemma intersect_d_eq_dist (l : LineSegment) (r : Ray) (it : Intersection)
    (h : l.intersect r = some it) : it.d = r.o.distance it.p := by
  unfold LineSegment.intersect at h
  split_ifs at h
  rw [Option.some.injEq] at h
  subst h
  rfl

lemma keepNearest_of_none (r : Ray) (acc : Option Intersection)
    (l : LineSegment) (h : l.intersect r = none) : keepNearest r acc l = acc := by
  unfold keepNearest
  rw [h]

lemma keepNearest_some_none (r : Ray) (l : LineSegment) (it0 : Intersection)
    (h : l.intersect r = some it0) : keepNearest r none l = some it0 := by
  unfold keepNearest
  rw [h]

lemma keepNearest_some_some (r : Ray) (l : LineSegment) (it0 best : Intersection)
    (h : l.intersect r = some it0) :
    keepNearest r (some best) l =
      if it0.d < best.d then some it0 else some best := by
  unfold keepNearest
  rw [h]

/-- Invariant of the inner wall loop: the kept intersection comes from
the accumulator or from one of the walls, and its distance is a lower
bound for the accumulator and for every hit among the walls. -/
lemma foldl_keepNearest_spec (r : Ray) :
    ∀ (walls : List LineSegment) (acc : Option Intersection) (it : Intersection),
      walls.foldl (keepNearest r) acc = some it →
      (acc = some it ∨ ∃ l ∈ walls, l.intersect r = some it) ∧
      (∀ b, acc = some b → it.d ≤ b.d) ∧
      (∀ l ∈ walls, ∀ it2, l.intersect r = some it2 → it.d ≤ it2.d) := by
  intro walls
  induction walls with
  | nil =>
    intro acc it h
    simp only [List.foldl_nil] at h
    refine ⟨Or.inl h, ?_, ?_⟩
    · intro b hb
      rw [h, Option.some.injEq] at hb
      rw [hb]
    · intro l hl
      exact absurd hl (List.not_mem_nil l)
  | cons l ws ih =>
    intro acc it h
    simp only [List.foldl_cons] at h
    obtain ⟨hA, hB, hC⟩ := ih (keepNearest r acc l) it h
    refine ⟨?_, ?_, ?_⟩
    · rcases hA with hk | ⟨l', hl', h'⟩
      · cases hI : l.intersect r with
        | none =>
          rw [keepNearest_of_none r acc l hI] at hk
          exact Or.inl hk
        | some it0 =>
          cases hacc : acc with
          | none =>
            rw [hacc, keepNearest_some_none r l it0 hI, Option.some.injEq] at hk
            exact Or.inr ⟨l, List.mem_cons_self l ws, by rw [hI, hk]⟩
          | some best =>
            rw [hacc, keepNearest_some_some r l it0 best hI] at hk
            by_cases hlt : it0.d < best.d
            · rw [if_pos hlt, Option.some.injEq] at hk
              exact Or.inr ⟨l, List.mem_cons_self l ws, by rw [hI, hk]⟩
            · rw [if_neg hlt, Option.some.injEq] at hk
              exact Or.inl (by rw [hk])
      · exact Or.inr ⟨l', List.mem_cons_of_mem l hl', h'⟩
    · intro b hb
      cases hI : l.intersect r with
      | none =>
        exact hB b (by rw [keepNearest_of_none r acc l hI]; exact hb)
      | some it0 =>
        have hk2 := keepNearest_some_some r l it0 b hI
        by_cases hlt : it0.d < b.d
        · exact le_trans (hB it0 (by rw [hb, hk2, if_pos hlt])) (le_of_lt hlt)
        · exact hB b (by rw [hb, hk2, if_neg hlt])
    · intro l' hl' it2 h2
      rcases List.mem_cons.mp hl' with hEq | hmem
      · subst hEq
        cases hacc : acc with
        | none =>
          exact hB it2 (by rw [hacc, keepNearest_some_none r l' it2 h2])
        | some best =>
          have hk2 := keepNearest_some_some r l' it2 best h2
          by_cases hlt : it2.d < best.d
          · exact hB it2 (by rw [hacc, hk2, if_pos hlt])
          · exact le_trans (hB best (by rw [hacc, hk2, if_neg hlt])) (not_lt.mp hlt)
      · exact hC l' hmem it2 h2

/-- The hit kept for a column is a genuine hit of one of the walls and
realizes the minimum hit distance. -/
lemma wallPassHit_spec (walls : List LineSegment) (r : Ray) (it : Intersection)
    (h : wallPassHit walls r = some it) :
    (∃ l ∈ walls, l.intersect r = some it) ∧
    ∀ l ∈ walls, ∀ it2, l.intersect r = some it2 → it.d ≤ it2.d := by
  obtain ⟨hA, _, hC⟩ := foldl_keepNearest_spec r walls none it h
  rcases hA with h0 | h0
  · exact absurd h0 (by simp)
  · exact ⟨h0, hC⟩

lemma depthBufferValue_of_some (walls : List LineSegment) (r : Ray)
    (it : Intersection) (h : wallPassHit walls r = some it) :
    depthBufferValue walls r = it.d := by
  unfold depthBufferValue
  rw [h]

lemma depthBufferValue_of_none (walls : List LineSegment) (r : Ray)
    (h : wallPassHit walls r = none) : depthBufferValue walls r = 0 := by
  unfold depthBufferValue
  rw [h]

/-! Lemmas about Python's truncation and float modulo. -/

lemma pyInt_of_nonneg (x : ℝ) (h : 0 ≤ x) : pyInt x = ⌊x⌋ := if_pos h

lemma pyInt_nonneg (x : ℝ) (h : 0 ≤ x) : 0 ≤ pyInt x := by
  rw [pyInt_of_nonneg x h]
  exact Int.floor_nonneg.mpr h

lemma one_le_pyInt (x : ℝ) (h : 1 ≤ x) : 1 ≤ pyInt x := by
  rw [pyInt_of_nonneg x (le_trans zero_le_one h)]
  exact Int.le_floor.mpr (by exact_mod_cast h)

lemma pyInt_mono {x y : ℝ} (h : x ≤ y) : pyInt x ≤ pyInt y := by
  unfold pyInt
  by_cases hx : 0 ≤ x
  · rw [if_pos hx, if_pos (le_trans hx h)]
    exact Int.floor_le_floor h
  · rw [if_neg hx]
    by_cases hy : 0 ≤ y
    · rw [if_pos hy]
      exact le_trans (Int.ceil_le.mpr (by exact_mod_cast (not_le.mp hx).le))
        (Int.floor_nonneg.mpr hy)
    · rw [if_neg hy]
      exact Int.ceil_le_ceil h

lemma vec2_len_mk (x y : ℝ) :
    vec2.length ⟨x, y⟩ = Real.sqrt (x * x + y * y) := rfl

lemma vec3_len_mk (x y z : ℝ) :
    vec3.length ⟨x, y, z⟩ = Real.sqrt (x * x + y * y + z * z) := rfl

/-- Normalizing a vector of positive length yields a unit vector. -/
lemma normalize_length_one (v : vec2) (h : 0 < v.length) :
    (v.normalize).length = 1 := by
  have hne : v.length ≠ 0 := ne_of_gt h
  have hsq : v.length ^ 2 = v.x * v.x + v.y * v.y := by
    rw [vec2.length_sqrt]
    exact Real.sq_sqrt (add_nonneg (mul_self_nonneg _) (mul_self_nonneg _))
  unfold vec2.normalize
  rw [if_pos h, vec2_len_mk]
  rw [show v.x / v.length * (v.x / v.length) + v.y / v.length * (v.y / v.length)
      = (v.x * v.x + v.y * v.y) / v.length ^ 2 by
    rw [div_mul_div_comm, div_mul_div_comm, div_add_div_same, sq]]
  rw [← hsq, div_self (pow_ne_zero 2 hne), Real.sqrt_one]

/-! The texture wrap of `get_tex_column` and `Plane3d.sample_texture`
is floor-modulo: the selected column is `⌊w * fract s⌋`. -/

lemma get_tex_column_eq_fract (w : ℕ) (hw : 0 < w) (s : ℝ) :
    get_tex_column w s = ⌊(w : ℝ) * Int.fract s⌋ := by
  have hw' : (0 : ℝ) < w := by exact_mod_cast hw
  have hwne : (w : ℝ) ≠ 0 := ne_of_gt hw'
  unfold get_tex_column pymod
  by_cases hs : (0.0 : ℝ) ≤ s
  · rw [if_pos hs]
    rw [mul_div_cancel_right₀ s hwne]
    rw [show s * (w : ℝ) - (w : ℝ) * (⌊s⌋ : ℝ) = (w : ℝ) * Int.fract s by
      unfold Int.fract; ring]
    exact pyInt_of_nonneg _ (mul_nonneg hw'.le (Int.fract_nonneg s))
  · rw [if_neg hs]
    by_cases hfr : Int.fract s = 0
    · have hfl : ((⌊s⌋ : ℤ) : ℝ) = s := by
        have h1 : s - (⌊s⌋ : ℝ) = 0 := hfr
        linarith
      have hceil : ((⌈s⌉ : ℤ) : ℝ) = s := by
        rw [← hfl, Int.ceil_intCast]
      rw [show (1.0 - (((⌈s⌉ : ℤ) : ℝ) - s)) * (w : ℝ) = (w : ℝ) by
        rw [hceil]; ring]
      rw [div_self hwne, Int.floor_one]
      rw [show (w : ℝ) - (w : ℝ) * ((1 : ℤ) : ℝ) = 0 by push_cast; ring]
      rw [hfr, mul_zero, pyInt_of_nonneg _ le_rfl]
    · have hfr' : 0 < Int.fract s :=
        lt_of_le_of_ne (Int.fract_nonneg s) (Ne.symm hfr)
      have h1 : (⌊s⌋ : ℝ) < s := by
        have : s - (⌊s⌋ : ℝ) = Int.fract s := rfl
        linarith
      have h2 : ⌊s⌋ < ⌈s⌉ := by
        have := lt_of_lt_of_le h1 (Int.le_ceil s)
        exact_mod_cast this
      have hceil : ⌈s⌉ = ⌊s⌋ + 1 :=
        le_antisymm (Int.ceil_le_floor_add_one s) (by omega)
      have harg : (1.0 - (((⌈s⌉ : ℤ) : ℝ) - s)) * (w : ℝ) = Int.fract s * (w : ℝ) := by
        rw [hceil]
        push_cast
        unfold Int.fract
        ring
      rw [harg, mul_div_cancel_right₀ _ hwne, Int.floor_fract]
      rw [show Int.fract s * (w : ℝ) - (w : ℝ) * ((0 : ℤ) : ℝ)
          = (w : ℝ) * Int.fract s by push_cast; ring]
      exact pyInt_of_nonneg _ (mul_nonneg hw'.le (Int.fract_nonneg s))

lemma get_tex_column_periodic (w : ℕ) (hw : 0 < w) (s : ℝ) (k : ℤ) :
    get_tex_column w (s + k) = get_tex_column w s := by
  rw [get_tex_column_eq_fract w hw, get_tex_column_eq_fract w hw, Int.fract_add_int]

/-- Each axis of the floor/ceiling sampler applies the same wrap as the
wall sampler. -/
lemma sample_texture_eq_cols (w h : ℕ) (st : vec2) :
    Plane3d.sample_texture w h st = (get_tex_column w st.x, get_tex_column h st.y) := rfl

/-! Claim theorems. -/

/-- Claim C1: for a wall segment with endpoints `a = (0,0)`, `b = (2,0)`
and texture coordinates `tca`, `tcb` bound to `a` and `b`, `intersect`
applied to the ray with origin `(1,-1)` and direction `(0,1)` returns an
intersection with point `(1,0)`, distance `1.0`, and interpolated texture
coordinate `(tca + tcb) / 2`, the segment midpoint value. -/
theorem intersect_test_scene (tca tcb : ℝ) :
    (wallA tca tcb).intersect rayA = some ⟨⟨1, 0⟩, 1, (tca + tcb) / 2⟩ :=
  intersect_wallA_rayA tca tcb

/-- A ray parallel to `wallA`, built directly as a record (origin
`(0,-1)`, direction `(1,0)`). -/
def rayE : Ray := ⟨⟨0, -1⟩, ⟨1, 0⟩⟩

/-- A degenerate wall segment whose endpoints coincide; its determinant
against any ray vanishes. -/
def wallC : LineSegment := ⟨⟨0, 0⟩, ⟨0, 0⟩, 0, 0⟩

/-- Claim C5: `TOLERANCE` is `1e-6`, which is at or below `1e-5`; whenever
the absolute value of the determinant is below `TOLERANCE` the result of
`intersect` is `none`, and in particular a ray whose direction is parallel
to the segment (vanishing 2D cross product) yields `none`. -/
theorem parallel_rejection_tolerance :
    TOLERANCE = 0.000001 ∧
    TOLERANCE ≤ 0.00001 ∧
    (∀ (l : LineSegment) (r : Ray), |l.detval r| < TOLERANCE →
      l.intersect r = none) ∧
    (∀ (l : LineSegment) (r : Ray),
      (l.b.sub l.a).x * r.d.y - (l.b.sub l.a).y * r.d.x = 0 →
      l.intersect r = none) := by
  have htol : ∀ (l : LineSegment) (r : Ray), |l.detval r| < TOLERANCE →
      l.intersect r = none := by
    intro l r h
    unfold LineSegment.intersect
    rw [if_pos h]
  refine ⟨rfl, by rw [TOLERANCE]; norm_num, htol, ?_⟩
  intro l r h
  have hdet : l.detval r = 0 := by
    unfold LineSegment.detval LineSegment.v3val
    by_cases hside : 0 < sign (l.classifyPoint2D r.o)
    · rw [if_pos hside]
      show (l.b.sub l.a).x * (-r.d.y) + (l.b.sub l.a).y * r.d.x = 0
      linarith
    · rw [if_neg hside]
      show (l.b.sub l.a).x * r.d.y + (l.b.sub l.a).y * (-r.d.x) = 0
      linarith
  refine htol l r ?_
  rw [hdet, abs_zero, TOLERANCE]
  norm_num

/-- Witness for C5: the horizontal ray `rayE` is parallel to `wallA` and
yields no intersection; the degenerate wall `wallC` has a sub-tolerance
determinant against `rayA` and also yields no intersection. -/
theorem parallel_rejection_tolerance_witness :
    (wallA 0 6).intersect rayE = none ∧ wallC.intersect rayA = none := by
  constructor
  · refine parallel_rejection_tolerance.2.2.2 (wallA 0 6) rayE ?_
    rw [wallA_v2]
    show (2 : ℝ) * (0 : ℝ) - 0 * 1 = 0
    norm_num
  · refine parallel_rejection_tolerance.2.2.1 wallC rayA ?_
    have hdet : wallC.detval rayA = 0 := by
      unfold LineSegment.detval
      rw [show wallC.b.sub wallC.a = (⟨0, 0⟩ : vec2) by
        show vec2.sub ⟨0, 0⟩ ⟨0, 0⟩ = _
        unfold vec2.sub
        norm_num]
      show 0 * (wallC.v3val rayA).x + 0 * (wallC.v3val rayA).y = 0
      ring
    rw [hdet, abs_zero, TOLERANCE]
    norm_num

/-- Claim C10: `normalize` on a zero-length 2D or 3D vector is a no-op,
leaving every component unchanged, while on a vector of positive length
it divides every component by the length. -/
theorem normalize_zero_noop :
    (∀ v : vec2, v.length = 0 → v.normalize = v) ∧
    (∀ v : vec2, 0 < v.length →
      v.normalize = ⟨v.x / v.length, v.y / v.length⟩) ∧
    (∀ v : vec3, v.length = 0 → v.normalize = v) ∧
    (∀ v : vec3, 0 < v.length →
      v.normalize = ⟨v.x / v.length, v.y / v.length, v.z / v.length⟩) := by
  refine ⟨?_, ?_, ?_, ?_⟩
  · intro v h
    unfold vec2.normalize
    rw [h, if_neg (lt_irrefl (0 : ℝ))]
  · intro v h
    unfold vec2.normalize
    rw [if_pos h]
  · intro v h
    unfold vec3.normalize
    rw [h, if_neg (lt_irrefl (0 : ℝ))]
  · intro v h
    unfold vec3.normalize
    rw [if_pos h]

/-- Witness for C10: evaluated on the zero vectors and on `(3,4)` and
`(2,0,0)`. -/
theorem normalize_zero_noop_witness :
    vec2.normalize ⟨0, 0⟩ = ⟨0, 0⟩ ∧
    vec2.normalize ⟨3, 4⟩ = ⟨3 / vec2.length ⟨3, 4⟩, 4 / vec2.length ⟨3, 4⟩⟩ ∧
    vec3.normalize ⟨0, 0, 0⟩ = ⟨0, 0, 0⟩ ∧
    vec3.normalize ⟨2, 0, 0⟩ =
      ⟨2 / vec3.length ⟨2, 0, 0⟩, 0 / vec3.length ⟨2, 0, 0⟩,
        0 / vec3.length ⟨2, 0, 0⟩⟩ := by
  refine ⟨normalize_zero_noop.1 ⟨0, 0⟩ ?_, normalize_zero_noop.2.1 ⟨3, 4⟩ ?_,
    normalize_zero_noop.2.2.1 ⟨0, 0, 0⟩ ?_, normalize_zero_noop.2.2.2 ⟨2, 0, 0⟩ ?_⟩
  · rw [vec2_len_mk]
    norm_num
  · rw [vec2_len_mk, show (3 : ℝ) * 3 + 4 * 4 = 25 by norm_num]
    exact Real.sqrt_pos.mpr (by norm_num)
  · rw [vec3_len_mk]
    norm_num
  · rw [vec3_len_mk, show (2 : ℝ) * 2 + 0 * 0 + 0 * 0 = 4 by norm_num]
    exact Real.sqrt_pos.mpr (by norm_num)

/-- Counterexample to claim C2: at column 0 of a 320-wide framebuffer,
with the program's initial basis (direction `(-1,0)`, plane `(0,0.66)`),
the camera ray's stored direction is NOT `direction + plane * camera_x`:
the `Ray` constructor renormalizes it (the sum has length `√1.4356 ≠ 1`). -/
theorem camera_ray_not_raw_sum :
    (wallRay ⟨0, 0⟩ ⟨-1, 0⟩ ⟨0, 0.66⟩ 0 320).d ≠
      vec2.add ⟨-1, 0⟩ (vec2.scale ⟨0, 0.66⟩ (camera_x 0 320)) := by
  have hcx : camera_x 0 320 = -1 := by
    unfold camera_x
    norm_num
  have harg : vec2.add ⟨-1, 0⟩ (vec2.scale ⟨0, 0.66⟩ (camera_x 0 320))
      = (⟨-1, -0.66⟩ : vec2) := by
    rw [hcx]
    unfold vec2.add vec2.scale
    norm_num
  have hLpos : (0 : ℝ) < Real.sqrt 1.4356 := Real.sqrt_pos.mpr (by norm_num)
  have hd : (wallRay ⟨0, 0⟩ ⟨-1, 0⟩ ⟨0, 0.66⟩ 0 320).d
      = ⟨-1 / Real.sqrt 1.4356, -0.66 / Real.sqrt 1.4356⟩ := by
    show vec2.normalize
      (vec2.add ⟨-1, 0⟩ (vec2.scale ⟨0, 0.66⟩ (camera_x 0 320))) = _
    rw [harg, vec2.normalize_mk (-1) (-0.66) (Real.sqrt 1.4356)
      (by norm_num) hLpos]
  rw [hd, harg]
  intro hcon
  have hx : (-1 : ℝ) / Real.sqrt 1.4356 = -1 := congrArg vec2.x hcon
  have hLne : Real.sqrt 1.4356 ≠ 0 := ne_of_gt hLpos
  have hL1 : Real.sqrt 1.4356 = 1 := by
    field_simp at hx
    linarith
  have : (1.4356 : ℝ) = 1 := Real.sqrt_eq_one.mp hL1
  norm_num at this

/-- Claim C2 (amended): for every screen column `i` the camera ray's
origin is the player position and its direction is the NORMALIZATION of
`direction + plane * camera_x` with `camera_x = 2 * (i / width) - 1`
(the `Ray` constructor renormalizes, so the stored direction has unit
length whenever the sum is nonzero; the per-column perspective correction
is instead performed by the cosine division of the height projection). -/
theorem camera_ray_construction (pos dir plane : vec2) (i width : ℕ) :
    (wallRay pos dir plane i width).o = ⟨pos.x, pos.y⟩ ∧
    (wallRay pos dir plane i width).d =
      (dir.add (plane.scale (2.0 * ((i : ℝ) / (width : ℝ)) - 1))).normalize ∧
    (0 < (dir.add (plane.scale (2.0 * ((i : ℝ) / (width : ℝ)) - 1))).length →
      (wallRay pos dir plane i width).d.length = 1) := by
  refine ⟨rfl, rfl, ?_⟩
  intro hpos
  exact normalize_length_one _ hpos

/-- Witness for C2: at the initial basis and column 0 the stored camera
ray direction is a unit vector and the origin is the player position. -/
theorem camera_ray_construction_witness :
    (wallRay ⟨0, 0⟩ ⟨-1, 0⟩ ⟨0, 0.66⟩ 0 320).o = ⟨0, 0⟩ ∧
    (wallRay ⟨0, 0⟩ ⟨-1, 0⟩ ⟨0, 0.66⟩ 0 320).d.length = 1 := by
  refine ⟨(camera_ray_construction ⟨0, 0⟩ ⟨-1, 0⟩ ⟨0, 0.66⟩ 0 320).1,
    (camera_ray_construction ⟨0, 0⟩ ⟨-1, 0⟩ ⟨0, 0.66⟩ 0 320).2.2 ?_⟩
  rw [show vec2.add ⟨-1, 0⟩ (vec2.scale ⟨0, 0.66⟩ (2.0 * ((0 : ℕ) / (320 : ℕ) : ℝ) - 1))
      = (⟨-1, -0.66⟩ : vec2) by unfold vec2.add vec2.scale; norm_num]
  rw [vec2_len_mk, show (-1 : ℝ) * -1 + -0.66 * -0.66 = 1.4356 by norm_num]
  exact Real.sqrt_pos.mpr (by norm_num)

/-- Counterexample to claim C6: the ray `rayB` hits `wallA 0 6` exactly
at endpoint `a` (segment parameter `t2 = 0`), yet the returned texture
coordinate is `6 = tcb`, not `tca + (tcb - tca) * 0 = tca = 0`. -/
theorem tex_coord_not_endpoint_bound :
    (wallA 0 6).t2val rayB = 0 ∧
    (wallA 0 6).intersect rayB = some ⟨⟨0, 0⟩, 1, 6⟩ ∧
    (6 : ℝ) ≠ (wallA 0 6).tca + ((wallA 0 6).tcb - (wallA 0 6).tca) * (wallA 0 6).t2val rayB := by
  refine ⟨wallA_rayB_t2 0 6, intersect_wallA_rayB 0 6, ?_⟩
  rw [wallA_rayB_t2 0 6]
  show (6 : ℝ) ≠ 0 + (6 - 0) * 0
  norm_num

/-- Claim C6 (amended): for every accepted intersection the returned
texture coordinate is `lerp tca tcb t2 = tca*t2 + tcb*(1 - t2)` with
`t2 ∈ [0,1]`; this lerp yields `tcb` at `t2 = 0` (endpoint `a`) and
`tca` at `t2 = 1` (endpoint `b`) — the two bound coordinates enter the
interpolation in the order opposite to the endpoint binding. -/
theorem tex_coord_lerp (l : LineSegment) (r : Ray) (it : Intersection)
    (h : l.intersect r = some it) :
    it.tc = lerp l.tca l.tcb (l.t2val r) ∧
    lerp l.tca l.tcb 0 = l.tcb ∧
    lerp l.tca l.tcb 1 = l.tca ∧
    0 ≤ l.t2val r ∧ l.t2val r ≤ 1 := by
  unfold LineSegment.intersect at h
  split_ifs at h with h1 h2
  rw [Option.some.injEq] at h
  subst h
  obtain ⟨ha, hb, -⟩ := h2
  norm_num at ha hb
  exact ⟨rfl, by unfold lerp; ring, by unfold lerp; ring, ha, hb⟩

/-- Witness for C6: instantiated on the accepted hit of `rayA` against
`wallA 0 6`. -/
theorem tex_coord_lerp_witness :
    (Intersection.tc ⟨⟨1, 0⟩, 1, (0 + 6) / 2⟩ : ℝ)
      = lerp (wallA 0 6).tca (wallA 0 6).tcb ((wallA 0 6).t2val rayA) ∧
    lerp (wallA 0 6).tca (wallA 0 6).tcb 0 = (wallA 0 6).tcb ∧
    lerp (wallA 0 6).tca (wallA 0 6).tcb 1 = (wallA 0 6).tca ∧
    0 ≤ (wallA 0 6).t2val rayA ∧ (wallA 0 6).t2val rayA ≤ 1 :=
  tex_coord_lerp (wallA 0 6) rayA ⟨⟨1, 0⟩, 1, (0 + 6) / 2⟩
    (intersect_wallA_rayA 0 6)

/-- Counterexample to claim C7: a wall hit at distance `400` with zero
angular offset projects to a clamped height of `0`, below the claimed
lower bound of `1`. -/
theorem proj_height_zero_for_far_hit :
    projHeight 400 0 = 0 ∧ (0 : ℝ) < 400 ∧ ¬ (1 ≤ projHeight 400 0) := by
  have hcos : Real.cos (0 * DEG2RAD) = 1 := by rw [zero_mul, Real.cos_zero]
  have hval : pyInt ((200 : ℝ) / (400 * Real.cos (0 * DEG2RAD))) = 0 := by
    rw [hcos, show (200 : ℝ) / (400 * 1) = 1 / 2 by norm_num,
      pyInt_of_nonneg _ (by norm_num)]
    rw [Int.floor_eq_zero_iff]
    constructor <;> norm_num
  have hzero : projHeight 400 0 = 0 := by
    unfold projHeight
    rw [hval, if_neg (by rw [HEIGHT_CLAMP_MULTIPLER]; norm_num)]
  exact ⟨hzero, by norm_num, by rw [hzero]; norm_num⟩

/-- Claim C7 (amended): for a hit at distance `d > 0` in a column whose
angular-offset cosine is positive, the clamped projected height `h`
satisfies `0 ≤ h ≤ HEIGHT_CLAMP_MULTIPLER * 200`; the lower bound `1 ≤ h`
holds under the additional premise `d * cos(angle * DEG2RAD) ≤ 200`
(true for every hit in the bundled scene, but not for all `d > 0`). -/
theorem proj_height_clamped (d angle : ℝ) (hd : 0 < d)
    (hc : 0 < Real.cos (angle * DEG2RAD)) :
    0 ≤ projHeight d angle ∧
    projHeight d angle ≤ HEIGHT_CLAMP_MULTIPLER * 200 ∧
    (d * Real.cos (angle * DEG2RAD) ≤ 200 → 1 ≤ projHeight d angle) := by
  have hq : 0 ≤ (200 : ℝ) / (d * Real.cos (angle * DEG2RAD)) := by positivity
  have h0 : 0 ≤ pyInt ((200 : ℝ) / (d * Real.cos (angle * DEG2RAD))) :=
    pyInt_nonneg _ hq
  unfold projHeight
  refine ⟨?_, ?_, ?_⟩
  · split_ifs with h
    · rw [HEIGHT_CLAMP_MULTIPLER]
      norm_num
    · exact h0
  · split_ifs with h
    · exact le_refl _
    · exact le_of_not_lt h
  · intro hle
    have h1 : (1 : ℝ) ≤ (200 : ℝ) / (d * Real.cos (angle * DEG2RAD)) := by
      rw [le_div_iff₀ (by positivity)]
      linarith
    have hone := one_le_pyInt _ h1
    split_ifs with h
    · rw [HEIGHT_CLAMP_MULTIPLER]
      norm_num
    · exact hone

/-- Witness for C7: a hit at distance 1 straight ahead has height between
1 and the clamp bound. -/
theorem proj_height_clamped_witness :
    0 ≤ projHeight 1 0 ∧ 1 ≤ projHeight 1 0 := by
  have hc : (0 : ℝ) < Real.cos (0 * DEG2RAD) := by
    rw [zero_mul, Real.cos_zero]
    norm_num
  refine ⟨(proj_height_clamped 1 0 (by norm_num) hc).1,
    (proj_height_clamped 1 0 (by norm_num) hc).2.2 ?_⟩
  rw [zero_mul, Real.cos_zero]
  norm_num

/-- Claim C8: the distance-shading factor (written identically for
walls, floor/ceiling and sprites) is non-increasing in distance, equals
`255` (no darkening) at distance `0`, follows the linear ramp `d / FAR`
on `[0, FAR]`, and is constantly `0` (fully fogged) for every distance at
or above `FAR`. -/
theorem fog_ramp_shape :
    (∀ d1 d2 : ℝ, d1 ≤ d2 → fogDepth d2 ≤ fogDepth d1) ∧
    fogDepth 0 = 255 ∧
    (∀ d : ℝ, 0 ≤ d → d ≤ FAR → fogScale d = d / FAR) ∧
    (∀ d : ℝ, FAR ≤ d → fogDepth d = 0) := by
  have hscale_mono : ∀ d1 d2 : ℝ, d1 ≤ d2 → fogScale d1 ≤ fogScale d2 := by
    intro d1 d2 h
    unfold fogScale FAR
    rw [div_le_div_iff_of_pos_right (by norm_num : (0 : ℝ) < 5.0)]
    split_ifs with ha hb hb
    · exact h
    · exact ha.le
    · linarith [not_lt.mp ha]
    · exact le_refl _
  refine ⟨?_, ?_, ?_, ?_⟩
  · intro d1 d2 h
    unfold fogDepth
    have := pyInt_mono (mul_le_mul_of_nonneg_right (hscale_mono d1 d2 h)
      (by norm_num : (0 : ℝ) ≤ 255))
    omega
  · unfold fogDepth fogScale FAR
    rw [if_pos (by norm_num : (0 : ℝ) < 5.0)]
    rw [show (0 : ℝ) / 5.0 * 255 = 0 by norm_num, pyInt_of_nonneg _ le_rfl]
    simp
  · intro d h0 h5
    unfold fogScale
    split_ifs with h
    · rfl
    · rw [le_antisymm h5 (not_lt.mp h)]
  · intro d h
    unfold fogDepth fogScale
    rw [if_neg (not_lt.mpr h)]
    rw [show FAR / FAR * 255 = (255 : ℝ) by rw [FAR]; norm_num]
    rw [pyInt_of_nonneg _ (by norm_num)]
    rw [show ⌊(255 : ℝ)⌋ = 255 by norm_num]
    norm_num

/-- Witness for C8: the factor at distance 2 is at most the one at 1,
the ramp value at 1 is `1 / FAR`, and the factor vanishes at distance 7. -/
theorem fog_ramp_shape_witness :
    fogDepth 2 ≤ fogDepth 1 ∧ fogScale 1 = 1 / FAR ∧ fogDepth 7 = 0 :=
  ⟨fog_ramp_shape.1 1 2 (by norm_num),
   fog_ramp_shape.2.2.1 1 (by norm_num) (by rw [FAR]; norm_num),
   fog_ramp_shape.2.2.2 7 (by rw [FAR]; norm_num)⟩

/-- Claim C9: wall texture column selection is periodic with period 1 in
the texture coordinate (integer shifts select the same column, also for
negative coordinates), and floor/ceiling sampling is periodic in both
axes under integer shifts. -/
theorem texture_wrap_periodic :
    (∀ w : ℕ, 0 < w → ∀ (s : ℝ) (k : ℤ),
      get_tex_column w (s + k) = get_tex_column w s) ∧
    (∀ w h : ℕ, 0 < w → 0 < h → ∀ (st : vec2) (k m : ℤ),
      Plane3d.sample_texture w h ⟨st.x + k, st.y + m⟩ =
        Plane3d.sample_texture w h st) := by
  constructor
  · intro w hw s k
    exact get_tex_column_periodic w hw s k
  · intro w h hw hh st k m
    rw [sample_texture_eq_cols, sample_texture_eq_cols]
    show (get_tex_column w (st.x + k), get_tex_column h (st.y + m)) = _
    rw [get_tex_column_periodic w hw st.x k, get_tex_column_periodic h hh st.y m]

/-- Witness for C9: an integer shift of `-3` on a width-4 wall texture and
shifts `(5, -2)` on a 4×2 floor texture select the same pixels. -/
theorem texture_wrap_periodic_witness :
    get_tex_column 4 (1 / 2 + ((-3 : ℤ) : ℝ)) = get_tex_column 4 (1 / 2) ∧
    Plane3d.sample_texture 4 2 ⟨1 / 2 + ((5 : ℤ) : ℝ), 1 / 3 + ((-2 : ℤ) : ℝ)⟩ =
      Plane3d.sample_texture 4 2 ⟨1 / 2, 1 / 3⟩ :=
  ⟨texture_wrap_periodic.1 4 (by norm_num) (1 / 2) (-3),
   texture_wrap_periodic.2 4 2 (by norm_num) (by norm_num) ⟨1 / 2, 1 / 3⟩ 5 (-2)⟩

/-- Counterexample to claim C3: for the wall on `y = 1` and the column-1
camera ray of a 4-column screen (player at the origin, view `(0,1)`,
plane `(-2,0)`), the wall pass records the EUCLIDEAN hit distance `√2`
in the depth buffer, while the hit distance projected onto the view axis
(the spec's "perpendicular distance") is `1`. -/
theorem depth_buffer_euclidean_cex :
    depthBufferValue [wallB] rayC = Real.sqrt 2 ∧
    specPerpendicularDepth ⟨0, 1⟩ rayC.o ⟨1, 1⟩ = 1 ∧
    depthBufferValue [wallB] rayC ≠ specPerpendicularDepth ⟨0, 1⟩ rayC.o ⟨1, 1⟩ := by
  have hhit : wallPassHit [wallB] rayC = some ⟨⟨1, 1⟩, Real.sqrt 2, 0⟩ := by
    unfold wallPassHit
    rw [List.foldl_cons, List.foldl_nil]
    exact keepNearest_some_none rayC wallB _ intersect_wallB_rayC
  have h1 : depthBufferValue [wallB] rayC = Real.sqrt 2 :=
    depthBufferValue_of_some [wallB] rayC _ hhit
  have h2 : specPerpendicularDepth ⟨0, 1⟩ rayC.o ⟨1, 1⟩ = 1 := by
    unfold specPerpendicularDepth
    rw [rayC_eq]
    rw [vec2.normalize_mk 0 1 1
      (by rw [show (0 : ℝ) * 0 + 1 * 1 = 1 by norm_num, Real.sqrt_one]) one_pos]
    show vec2.dot (vec2.sub ⟨1, 1⟩ ⟨0, 0⟩) ⟨0 / 1, 1 / 1⟩ = 1
    unfold vec2.sub vec2.dot
    norm_num
  have h3 : Real.sqrt 2 ≠ 1 := by
    intro hcon
    have := Real.sqrt_eq_one.mp hcon
    norm_num at this
  exact ⟨h1, h2, by rw [h1, h2]; exact h3⟩

/-- Claim C3 (amended): after the wall pass, the depth buffer entry of a
column with at least one wall hit equals the EUCLIDEAN distance from the
ray origin to the kept hit point (not corrected for the column's angular
offset); the kept hit is a genuine hit of one of the walls realizing the
minimum hit distance, and the sprite pass reads the entry in its
per-column occlusion test. -/
theorem depth_buffer_nearest_euclidean (walls : List LineSegment) (r : Ray)
    (it : Intersection) (h : wallPassHit walls r = some it) :
    depthBufferValue walls r = it.d ∧
    it.d = r.o.distance it.p ∧
    (∃ l ∈ walls, l.intersect r = some it) ∧
    (∀ l ∈ walls, ∀ it2, l.intersect r = some it2 → it.d ≤ it2.d) ∧
    (∀ (width i : ℤ) (ty : ℝ),
      spriteSliceDrawn width i ty (depthBufferValue walls r) ↔
        0 ≤ i ∧ i < width ∧ ty < it.d) := by
  obtain ⟨⟨l, hl, hI⟩, hmin⟩ := wallPassHit_spec walls r it h
  have hd := depthBufferValue_of_some walls r it h
  refine ⟨hd, intersect_d_eq_dist l r it hI, ⟨l, hl, hI⟩, hmin, ?_⟩
  intro width i ty
  rw [hd]
  exact Iff.rfl

/-- Witness for C3: for the single wall `wallA 0 6` and the ray `rayA`
the depth buffer entry is the Euclidean hit distance 1. -/
theorem depth_buffer_nearest_euclidean_witness :
    depthBufferValue [wallA 0 6] rayA = 1 := by
  have hI : (wallA 0 6).intersect rayA = some ⟨⟨1, 0⟩, 1, 3⟩ := by
    rw [intersect_wallA_rayA 0 6]
    norm_num
  have hhit : wallPassHit [wallA 0 6] rayA = some ⟨⟨1, 0⟩, 1, 3⟩ := by
    unfold wallPassHit
    rw [List.foldl_cons, List.foldl_nil]
    exact keepNearest_some_none rayA (wallA 0 6) _ hI
  exact (depth_buffer_nearest_euclidean [wallA 0 6] rayA ⟨⟨1, 0⟩, 1, 3⟩ hhit).1

/-- Counterexample to claim C4: the scene `[wallA 0 6]` gives no hit for
the column ray `rayD`, so the depth buffer entry keeps its initial value
`0` — NOT infinite depth.  A sprite at forward depth `ty = 1 > 0` whose
footprint (here `sw = 20`, center column `5`, so columns `0..14`) covers
column `5` is strictly in front of every wall in that column and is
nevertheless not drawn there. -/
theorem sprite_in_front_not_drawn_cex :
    wallPassHit [wallA 0 6] rayD = none ∧
    depthBufferValue [wallA 0 6] rayD = 0 ∧
    draw_start_x 20 5 ≤ 5 ∧ (5 : ℤ) < draw_end_x 320 20 5 ∧
    (0 : ℝ) < 1 ∧
    ¬ spriteSliceDrawn 320 5 1 (depthBufferValue [wallA 0 6] rayD) := by
  have hnone : wallPassHit [wallA 0 6] rayD = none := by
    unfold wallPassHit
    rw [List.foldl_cons, List.foldl_nil]
    exact keepNearest_of_none rayD none (wallA 0 6) (intersect_wallA_rayD 0 6)
  have hdb := depthBufferValue_of_none [wallA 0 6] rayD hnone
  refine ⟨hnone, hdb, by decide, by decide, by norm_num, ?_⟩
  unfold spriteSliceDrawn
  rw [hdb]
  rintro ⟨-, -, hcon⟩
  exact absurd hcon (by norm_num)

/-- Claim C4 (amended): within its clamped footprint a sprite slice is
drawn in a column exactly when its forward depth `ty` is strictly below
the column's depth buffer entry; a column with no wall hit keeps the
initial entry `0`, so no sprite with `ty > 0` is ever drawn there (the
code treats missing hits as zero depth, not as infinite depth). -/
theorem sprite_occlusion_test :
    (∀ (width sw ssx i : ℤ) (ty dep : ℝ),
      draw_start_x sw ssx ≤ i → i < draw_end_x width sw ssx →
      (spriteSliceDrawn width i ty dep ↔ ty < dep)) ∧
    (∀ (walls : List LineSegment) (r : Ray) (ty : ℝ) (width i : ℤ),
      0 < ty → wallPassHit walls r = none →
      ¬ spriteSliceDrawn width i ty (depthBufferValue walls r)) := by
  constructor
  · intro width sw ssx i ty dep h1 h2
    have hi0 : 0 ≤ i := by
      refine le_trans ?_ h1
      unfold draw_start_x
      split_ifs with hv
      · exact le_refl 0
      · exact not_lt.mp hv
    have hiw : i < width := by
      refine lt_of_lt_of_le h2 ?_
      unfold draw_end_x
      split_ifs with hv
      · exact le_refl width
      · exact (not_le.mp hv).le
    unfold spriteSliceDrawn
    constructor
    · rintro ⟨-, -, hty⟩
      exact hty
    · intro hty
      exact ⟨hi0, hiw, hty⟩
  · intro walls r ty width i hty hnone
    unfold spriteSliceDrawn
    rw [depthBufferValue_of_none walls r hnone]
    rintro ⟨-, -, hcon⟩
    exact absurd hcon (not_lt.mpr hty.le)

/-- Witness for C4: a covered column with depth 2 draws exactly when
`ty < 2`, and an empty scene (no hits anywhere) never draws a sprite of
positive forward depth. -/
theorem sprite_occlusion_test_witness :
    (spriteSliceDrawn 320 5 1 2 ↔ (1 : ℝ) < 2) ∧
    ¬ spriteSliceDrawn 320 5 1 (depthBufferValue [] rayA) :=
  ⟨sprite_occlusion_test.1 320 20 5 5 1 2 (by decide) (by decide),
   sprite_occlusion_test.2 [] rayA 1 320 5 (by norm_num) rfl⟩

end PyCaster
